import Mathlib

/-!
Verification of the protocol layer of the `lss_driver` servo-bus crate:
the frame codec, the command and response models, enumerated value
decoding, and the LED-blinking mask computation.  The definitions are a
shallow embedding of `src/serial_driver.rs`, `src/message_types.rs` and
`src/lib.rs`; strings are modelled as lists of characters and byte
buffers as lists of natural numbers below 256.
-/

namespace LssVerify

/-- Decimal digits (most significant first) of a natural number, as produced
by Rust's integer `Display`: standard decimal, no leading zeros, `0` renders
as `"0"`. -/
def natDecDigits (n : Nat) : List Char :=
  if h : n < 10 then [Char.ofNat (48 + n)]
  else natDecDigits (n / 10) ++ [Char.ofNat (48 + n % 10)]
decreasing_by exact Nat.div_lt_self (by omega) (by omega)

/-- Rust `Display` for a signed integer: minus sign for negative values,
then the decimal digits of the absolute value. -/
def intDecChars (v : Int) : List Char :=
  if v < 0 then '-' :: natDecDigits v.natAbs else natDecDigits v.toNat

/-- Rust `Display` for a signed integer, as a `String`. -/
def intDecStr (v : Int) : String :=
  String.mk (intDecChars v)

/-- The value of a non-empty all-digit character list, read in base 10
(the digit-accumulation loop shared by Rust's integer `FromStr`
implementations).  `none` if the list is empty or contains a non-digit. -/
def parseDigits? (cs : List Char) : Option Nat :=
  if cs.isEmpty || !(cs.all Char.isDigit) then none
  else some (cs.foldl (fun a c => a * 10 + (c.toNat - 48)) 0)

/-- Rust `u8::from_str`: an optional leading `+`, then decimal digits,
value at most 255; anything else (including a leading `-`) fails. -/
def parseU8? (cs : List Char) : Option Nat :=
  let body := match cs with
    | '+' :: rest => rest
    | _ => cs
  match parseDigits? body with
  | some v => if v ≤ 255 then some v else none
  | none => none

/-- Rust `i32::from_str`: an optional sign, then decimal digits, with the
value required to fit in a signed 32-bit integer. -/
def parseI32? (cs : List Char) : Option Int :=
  match cs with
  | '+' :: rest =>
    (parseDigits? rest).bind fun v =>
      if v ≤ 2147483647 then some (v : Int) else none
  | '-' :: rest =>
    (parseDigits? rest).bind fun v =>
      if v ≤ 2147483648 then some (-(v : Int)) else none
  | _ =>
    (parseDigits? cs).bind fun v =>
      if v ≤ 2147483647 then some (v : Int) else none

/-- Rust `str::split` with a pattern string: fields between leftmost,
non-overlapping occurrences of the separator.  Faithful to Rust for a
non-empty separator, which is the only way the source calls it. -/
def rustSplit (sep : List Char) : List Char → List (List Char)
  | [] => [[]]
  | c :: cs =>
    if sep.isPrefixOf (c :: cs) then
      [] :: rustSplit sep (cs.drop (sep.length - 1))
    else
      match rustSplit sep cs with
      | [] => [[c]]
      | f :: rest => (c :: f) :: rest
termination_by s => s.length
decreasing_by
  · simp only [List.length_cons]
    have := List.length_drop (sep.length - 1) cs
    omega
  · simp

/-- The UTF-8 encoding of one Unicode scalar value (Rust `char`),
as laid down by `String::as_bytes`. -/
def utf8EncodeChar (c : Char) : List Nat :=
  if c.toNat < 0x80 then [c.toNat]
  else if c.toNat < 0x800 then
    [0xC0 + c.toNat / 64, 0x80 + c.toNat % 64]
  else if c.toNat < 0x10000 then
    [0xE0 + c.toNat / 4096, 0x80 + c.toNat / 64 % 64, 0x80 + c.toNat % 64]
  else
    [0xF0 + c.toNat / 262144, 0x80 + c.toNat / 4096 % 64,
      0x80 + c.toNat / 64 % 64, 0x80 + c.toNat % 64]

/-- UTF-8 encoding of a string (Rust `String::as_bytes`). -/
def utf8Encode : List Char → List Nat
  | [] => []
  | c :: cs => utf8EncodeChar c ++ utf8Encode cs

/-- One step of Rust `str::from_utf8` validation-and-decoding: decode the
first UTF-8 sequence of the byte list and return the scalar together with
the remaining bytes.  Acceptance ranges are exactly Rust's: continuation
bytes are `0x80`–`0xBF`, overlong encodings, surrogates (`0xED` followed
by `0xA0`–`0xBF`) and values above `0x10FFFF` are rejected. -/
def utf8Step? (l : List Nat) : Option (Char × List Nat) :=
  match l with
  | [] => none
  | b1 :: rest =>
    if b1 < 0x80 then some (Char.ofNat b1, rest)
    else if b1 < 0xC2 then none
    else if b1 < 0xE0 then
      match rest with
      | b2 :: rest2 =>
        if 0x80 ≤ b2 ∧ b2 ≤ 0xBF then
          some (Char.ofNat ((b1 - 0xC0) * 64 + (b2 - 0x80)), rest2)
        else none
      | [] => none
    else if b1 < 0xF0 then
      match rest with
      | b2 :: b3 :: rest3 =>
        if (if b1 = 0xE0 then 0xA0 ≤ b2 ∧ b2 ≤ 0xBF
            else if b1 = 0xED then 0x80 ≤ b2 ∧ b2 ≤ 0x9F
            else 0x80 ≤ b2 ∧ b2 ≤ 0xBF) ∧ 0x80 ≤ b3 ∧ b3 ≤ 0xBF then
          some (Char.ofNat ((b1 - 0xE0) * 4096 + (b2 - 0x80) * 64 + (b3 - 0x80)),
            rest3)
        else none
      | _ => none
    else if b1 < 0xF5 then
      match rest with
      | b2 :: b3 :: b4 :: rest4 =>
        if (if b1 = 0xF0 then 0x90 ≤ b2 ∧ b2 ≤ 0xBF
            else if b1 = 0xF4 then 0x80 ≤ b2 ∧ b2 ≤ 0x8F
            else 0x80 ≤ b2 ∧ b2 ≤ 0xBF) ∧ 0x80 ≤ b3 ∧ b3 ≤ 0xBF ∧
            0x80 ≤ b4 ∧ b4 ≤ 0xBF then
          some (Char.ofNat
            ((b1 - 0xF0) * 262144 + (b2 - 0x80) * 4096 + (b3 - 0x80) * 64 +
              (b4 - 0x80)), rest4)
        else none
      | _ => none
    else none

/-- Iterate `utf8Step?` with explicit fuel.  Every successful step consumes
at least one byte, so fuel equal to the byte count is always sufficient;
fuel runs out only on inputs that are already invalid. -/
def utf8DecodeGo : Nat → List Nat → Option (List Char)
  | _, [] => some []
  | 0, _ :: _ => none
  | fuel + 1, b1 :: rest =>
    match utf8Step? (b1 :: rest) with
    | some (c, remaining) => (utf8DecodeGo fuel remaining).map (c :: ·)
    | none => none

/-- UTF-8 validation and decoding of a whole byte sequence, with exactly
the acceptance behaviour of Rust's `str::from_utf8`. -/
def utf8Decode? (l : List Nat) : Option (List Char) :=
  utf8DecodeGo l.length l

instance {ε α : Type} [DecidableEq ε] [DecidableEq α] : DecidableEq (Except ε α) :=
  fun x y =>
    match x, y with
    | .ok a, .ok b =>
      if h : a = b then isTrue (by rw [h])
      else isFalse (fun hc => h (Except.ok.inj hc))
    | .error a, .error b =>
      if h : a = b then isTrue (by rw [h])
      else isFalse (fun hc => h (Except.error.inj hc))
    | .ok _, .error _ => isFalse (fun hc => Except.noConfusion hc)
    | .error _, .ok _ => isFalse (fun hc => Except.noConfusion hc)

/-- Modelled from the spec: the error taxonomy of §7 with the constructor
names used throughout `src/serial_driver.rs` and `src/lib.rs` (the enum
declaration itself is not present under `src/`, only its uses):
transport-open failure, send failure, receive timeout, and payload-parse
failure carrying a descriptive message. -/
inductive LssDriverError where
  | FailedOpeningSerialPort : LssDriverError
  | SendingError : LssDriverError
  | TimeoutError : LssDriverError
  | PacketParsingError : String → LssDriverError
deriving DecidableEq, Repr

/-- `LssCommand` from `src/serial_driver.rs`: one outgoing instruction,
stored as its rendered message text. -/
structure LssCommand where
  message : List Char
deriving DecidableEq, Repr

/-- `LssCommand::with_param`: renders `format!("#{}{}{}\r", id, cmd, val)`. -/
def LssCommand.with_param (id : Nat) (cmd : List Char) (val : Int) : LssCommand :=
  ⟨'#' :: (natDecDigits id ++ cmd ++ intDecChars val ++ ['\r'])⟩

/-- `LssCommand::simple`: renders `format!("#{}{}\r", id, cmd)`. -/
def LssCommand.simple (id : Nat) (cmd : List Char) : LssCommand :=
  ⟨'#' :: (natDecDigits id ++ cmd ++ ['\r'])⟩

/-- `LssResponse` from `src/serial_driver.rs`: one decoded incoming frame,
stored as its raw message text. -/
structure LssResponse where
  message : List Char
deriving DecidableEq, Repr

/-- The slice `self.message[1..len - 1]` shared by `separate`,
`separate_string` and `get_val`.  In Rust the slice panics when the
message is shorter than two bytes (for the empty string `len - 1`
underflows, for a one-byte string the range `1..0` is invalid); the panic
is modelled as `none`. -/
def sliceBody (m : List Char) : Option (List Char) :=
  if 2 ≤ m.length then some ((m.drop 1).dropLast) else none

/-- `LssResponse::separate`: strips the marker and delimiter, splits the
body on the separator, parses the first field as a `u8` id and the second
as an `i32` value.  The outer `Option` models the slicing panic. -/
def LssResponse.separate (r : LssResponse) (separator : List Char) :
    Option (Except LssDriverError (Nat × Int)) :=
  (sliceBody r.message).map fun body =>
    let fields := rustSplit separator body
    match fields.head? with
    | none => .error (.PacketParsingError "Failed to extract id")
    | some idField =>
      match parseU8? idField with
      | none => .error (.PacketParsingError "Failed parsing id")
      | some id =>
        match fields.tail.head? with
        | none => .error (.PacketParsingError "Failed to extract value")
        | some valField =>
          match parseI32? valField with
          | none => .error (.PacketParsingError "Failed parsing value")
          | some value => .ok (id, value)

/-- `LssResponse::separate_string`: like `separate` but returns the second
field verbatim instead of parsing it. -/
def LssResponse.separate_string (r : LssResponse) (separator : List Char) :
    Option (Except LssDriverError (Nat × List Char)) :=
  (sliceBody r.message).map fun body =>
    let fields := rustSplit separator body
    match fields.head? with
    | none => .error (.PacketParsingError "Failed to extract id")
    | some idField =>
      match parseU8? idField with
      | none => .error (.PacketParsingError "Failed parsing id")
      | some id =>
        match fields.tail.head? with
        | none => .error (.PacketParsingError "Failed to extract value")
        | some valField => .ok (id, valField)

/-- `LssResponse::get_val`: splits the body on the separator and parses the
last field as an `i32`, ignoring any address prefix. -/
def LssResponse.get_val (r : LssResponse) (separator : List Char) :
    Option (Except LssDriverError Int) :=
  (sliceBody r.message).map fun body =>
    match (rustSplit separator body).getLast? with
    | none => .error (.PacketParsingError "failed to extract value")
    | some valField =>
      match parseI32? valField with
      | none => .error (.PacketParsingError "failed to parse int")
      | some value => .ok value

/-- Rust `Iterator::position`: index of the first element satisfying the
predicate. -/
def position? (p : Nat → Bool) : List Nat → Option Nat
  | [] => none
  | b :: bs => if p b then some 0 else (position? p bs).map (· + 1)

/-- `LssCodec::decode` (`Decoder` impl): scan the buffer for the first
`\r` byte; if found at `n`, split off the first `n + 1` bytes and parse
them as UTF-8 text (an invalid-text frame yields the `io::Error` message
`"Invalid String"` and the bytes stay consumed); otherwise report that no
complete frame is available and leave the buffer untouched.  Returns the
decode result paired with the buffer contents after the call. -/
def LssCodec.decode (src : List Nat) :
    Except String (Option LssResponse) × List Nat :=
  match position? (fun b => b == 13) src with
  | some n =>
    (match utf8Decode? (src.take (n + 1)) with
      | some s => .ok (some ⟨s⟩)
      | none => .error "Invalid String",
     src.drop (n + 1))
  | none => (.ok none, src)

/-- `LssCodec::encode` (`Encoder` impl): appends the command's bytes to the
outgoing buffer. -/
def LssCodec.encode (data : LssCommand) (buf : List Nat) : List Nat :=
  buf ++ utf8Encode data.message

/-- `PacketParsingError` from `src/message_types.rs`: the error produced
when an incoming value cannot be decoded into a closed enumeration. -/
structure PacketParsingError where
  message : String
deriving DecidableEq, Repr

/-- `MotorStatus` from `src/message_types.rs`. -/
inductive MotorStatus where
  | Unknown | Limp | FreeMoving | Accelerating | Traveling
  | Decelerating | Holding | OutsideLimits | Stuck | Blocked | SafeMode
deriving DecidableEq, Repr

/-- `MotorStatus::from_i32`: total on `0..=10`, any other integer yields a
`PacketParsingError` with the offending value in the message. -/
def MotorStatus.from_i32 (number : Int) : Except PacketParsingError MotorStatus :=
  if number = 0 then .ok .Unknown
  else if number = 1 then .ok .Limp
  else if number = 2 then .ok .FreeMoving
  else if number = 3 then .ok .Accelerating
  else if number = 4 then .ok .Traveling
  else if number = 5 then .ok .Decelerating
  else if number = 6 then .ok .Holding
  else if number = 7 then .ok .OutsideLimits
  else if number = 8 then .ok .Stuck
  else if number = 9 then .ok .Blocked
  else if number = 10 then .ok .SafeMode
  else .error ⟨"Failed parsing MotorStatus from " ++ intDecStr number⟩

/-- `LedBlinking` from `src/message_types.rs`, with its discriminants. -/
inductive LedBlinking where
  | NoBlinking | Limp | Holding | Accelerating | Decelerating
  | Free | Travelling | AlwaysBlink
deriving DecidableEq, Repr

/-- The `as i32` cast of a `LedBlinking` variant (its discriminant). -/
def LedBlinking.toI32 : LedBlinking → Int
  | .NoBlinking => 0
  | .Limp => 1
  | .Holding => 2
  | .Accelerating => 4
  | .Decelerating => 8
  | .Free => 16
  | .Travelling => 32
  | .AlwaysBlink => 63

/-- Two's-complement wrap-around of an integer into the `i32` range, the
release-mode semantics of Rust `i32` addition. -/
def i32wrap (n : Int) : Int :=
  (n + 2147483648) % 4294967296 - 2147483648

/-- `Iterator::sum::<i32>()`: left fold of wrapping `i32` addition. -/
def sumI32 (xs : List Int) : Int :=
  xs.foldl (fun acc x => i32wrap (acc + x)) 0

/-- The integer parameter computed by `LSSDriver::set_led_blinking`
(`src/lib.rs`): the `i32` sum of the variants' values, clamped from above
by `.min(LedBlinking::AlwaysBlink as i32)`. -/
def set_led_blinking_sum (blinking_mode : List LedBlinking) : Int :=
  min (sumI32 (blinking_mode.map LedBlinking.toI32)) 63

/-- The command sent by `LSSDriver::set_led_blinking`. -/
def set_led_blinking_command (id : Nat) (blinking_mode : List LedBlinking) :
    LssCommand :=
  LssCommand.with_param id ['C', 'L', 'B'] (set_led_blinking_sum blinking_mode)

/-! ### Helper lemmas -/

theorem natDecDigits_ne_nil (n : Nat) : natDecDigits n ≠ [] := by
  rw [natDecDigits]
  split
  · simp
  · simp

theorem natDecDigits_head_ne_zero {n : Nat} (h : n ≠ 0) :
    (natDecDigits n).head? ≠ some '0' := by
  induction n using Nat.strong_induction_on with
  | _ n ih =>
    rw [natDecDigits]
    split
    · rename_i hlt
      interval_cases n <;> simp_all
    · rename_i hge
      rcases hq : natDecDigits (n / 10) with _ | ⟨a, t⟩
      · exact absurd hq (natDecDigits_ne_nil _)
      · have hne : n / 10 ≠ 0 := by omega
        have := ih (n / 10) (Nat.div_lt_self (by omega) (by omega)) hne
        rw [hq] at this
        simpa using this

theorem position?_eq_none {p : Nat → Bool} {l : List Nat}
    (h : ∀ b ∈ l, ¬ p b) : position? p l = none := by
  induction l with
  | nil => rfl
  | cons b bs ih =>
    rw [position?, if_neg (h b (by simp)), ih (fun x hx => h x (by simp [hx]))]
    rfl

theorem position?_append_last {p : Nat → Bool} {l : List Nat} {x : Nat}
    (t : List Nat) (h : ∀ b ∈ l, ¬ p b) (hx : p x) :
    position? p (l ++ x :: t) = some l.length := by
  induction l with
  | nil => simp [position?, hx]
  | cons b bs ih =>
    rw [List.cons_append, position?, if_neg (h b (by simp)),
      ih (fun y hy => h y (by simp [hy]))]
    rfl

theorem position?_of_get {src : List Nat} {n : Nat}
    (h1 : src.get? n = some 13)
    (h2 : ∀ i, i < n → src.get? i ≠ some 13) :
    position? (fun b => b == 13) src = some n := by
  induction src generalizing n with
  | nil => simp at h1
  | cons b bs ih =>
    cases n with
    | zero =>
      simp only [List.get?_cons_zero, Option.some.injEq] at h1
      subst h1
      simp [position?]
    | succ m =>
      have hb : b ≠ 13 := by
        intro hc
        exact h2 0 (by omega) (by simp [hc])
      rw [position?, if_neg (by simp [hb])]
      rw [ih (by simpa using h1)
        (fun i hi => by
          have := h2 (i + 1) (by omega)
          simpa using this)]
      rfl

theorem position?_ne_none_of_mem {l : List Nat} (h : (13 : Nat) ∈ l) :
    position? (fun b => b == 13) l ≠ none := by
  induction l with
  | nil => simp at h
  | cons b bs ih =>
    rw [position?]
    by_cases hb : b = 13
    · simp [hb]
    · rw [if_neg (by simp [hb])]
      have h' : (13 : Nat) ∈ bs := by
        rcases List.mem_cons.mp h with h | h
        · exact absurd h.symm hb
        · exact h
      intro hc
      exact ih h' (by simpa using hc)

theorem rustSplit_ne_nil (sep s : List Char) : rustSplit sep s ≠ [] := by
  cases s with
  | nil => simp [rustSplit]
  | cons c cs =>
    rw [rustSplit]
    split
    · simp
    · cases hq : rustSplit sep cs with
      | nil => simp
      | cons f rest => simp

theorem sliceBody_frame (marker : Char) (body : List Char) (d : Char) :
    sliceBody (marker :: (body ++ [d])) = some body := by
  rw [sliceBody, if_pos (by simp)]
  simp [List.dropLast_concat]

theorem i32wrap_of_range {a : Int} (h1 : -2147483648 ≤ a)
    (h2 : a < 2147483648) : i32wrap a = a := by
  unfold i32wrap
  omega

theorem foldl_i32wrap (xs : List Int) :
    ∀ acc, i32wrap acc = acc →
      xs.foldl (fun a x => i32wrap (a + x)) acc = i32wrap (acc + xs.sum) := by
  induction xs with
  | nil =>
    intro acc h
    simpa using h.symm
  | cons x xs ih =>
    intro acc h
    simp only [List.foldl_cons, List.sum_cons]
    rw [ih (i32wrap (acc + x)) (by unfold i32wrap; omega)]
    unfold i32wrap
    omega

theorem sumI32_eq_wrap (xs : List Int) : sumI32 xs = i32wrap xs.sum := by
  have h := foldl_i32wrap xs 0 (by unfold i32wrap; omega)
  simpa [sumI32] using h

theorem char_toNat_valid (c : Char) :
    c.toNat < 0xD800 ∨ (0xDFFF < c.toNat ∧ c.toNat < 0x110000) := by
  have h := c.valid
  simp [UInt32.isValidChar, Nat.isValidChar] at h
  exact h

theorem char_eq_of_toNat {c : Char} {m : Nat} (h : c.toNat = m) :
    c = Char.ofNat m := by
  rw [← h, Char.ofNat_toNat]

theorem utf8EncodeChar_no13 {c : Char} (h : c ≠ '\r') :
    ∀ b ∈ utf8EncodeChar c, b ≠ 13 := by
  intro b hb hc
  subst hc
  have hcr : c.toNat ≠ 13 := fun hx => h (by rw [char_eq_of_toNat hx])
  rw [utf8EncodeChar] at hb
  generalize c.toNat = n at hb hcr
  split at hb
  · simp only [List.mem_singleton] at hb
    omega
  · split at hb
    · simp only [List.mem_cons, List.not_mem_nil, or_false] at hb
      rcases hb with hb | hb <;> omega
    · split at hb
      · simp only [List.mem_cons, List.not_mem_nil, or_false] at hb
        rcases hb with hb | hb | hb <;> omega
      · simp only [List.mem_cons, List.not_mem_nil, or_false] at hb
        rcases hb with hb | hb | hb | hb <;> omega

theorem utf8Encode_no13 {s : List Char} (h : ∀ c ∈ s, c ≠ '\r') :
    ∀ b ∈ utf8Encode s, b ≠ 13 := by
  induction s with
  | nil => simp [utf8Encode]
  | cons c cs ih =>
    intro b hb
    rw [utf8Encode] at hb
    rcases List.mem_append.mp hb with hb | hb
    · exact utf8EncodeChar_no13 (h c (by simp)) b hb
    · exact ih (fun x hx => h x (by simp [hx])) b hb

theorem utf8Encode_append (xs ys : List Char) :
    utf8Encode (xs ++ ys) = utf8Encode xs ++ utf8Encode ys := by
  induction xs with
  | nil => simp [utf8Encode]
  | cons c cs ih => simp [utf8Encode, ih]

theorem utf8EncodeChar_ne_nil (c : Char) : utf8EncodeChar c ≠ [] := by
  rw [utf8EncodeChar]
  split
  · simp
  · split
    · simp
    · split
      · simp
      · simp

theorem utf8EncodeChar_length_pos (c : Char) :
    1 ≤ (utf8EncodeChar c).length := by
  rcases hq : utf8EncodeChar c with _ | ⟨b, bs⟩
  · exact absurd hq (utf8EncodeChar_ne_nil c)
  · simp

theorem utf8Step?_encodeChar (c : Char) (rest : List Nat) :
    utf8Step? (utf8EncodeChar c ++ rest) = some (c, rest) := by
  have hv := char_toNat_valid c
  have hofn := Char.ofNat_toNat c
  rw [utf8EncodeChar]
  generalize ht : c.toNat = t
  rw [ht] at hv hofn
  by_cases h1 : t < 128
  · rw [if_pos h1, List.singleton_append]
    simp only [utf8Step?]
    rw [if_pos h1, hofn]
  · rw [if_neg h1]
    by_cases h2 : t < 2048
    · rw [if_pos h2]
      simp only [List.cons_append, List.nil_append, utf8Step?]
      rw [if_neg (by omega), if_neg (by omega), if_pos (by omega),
        if_pos (by omega)]
      rw [show (192 + t / 64 - 192) * 64 + (128 + t % 64 - 128) = t by omega,
        hofn]
    · rw [if_neg h2]
      by_cases h3 : t < 65536
      · rw [if_pos h3]
        simp only [List.cons_append, List.nil_append, utf8Step?]
        rw [if_neg (by omega), if_neg (by omega), if_neg (by omega),
          if_pos (by omega)]
        have he : (if 224 + t / 4096 = 224 then
              160 ≤ 128 + t / 64 % 64 ∧ 128 + t / 64 % 64 ≤ 191
            else if 224 + t / 4096 = 237 then
              128 ≤ 128 + t / 64 % 64 ∧ 128 + t / 64 % 64 ≤ 159
            else 128 ≤ 128 + t / 64 % 64 ∧ 128 + t / 64 % 64 ≤ 191) ∧
            128 ≤ 128 + t % 64 ∧ 128 + t % 64 ≤ 191 := by
          refine ⟨?_, by omega, by omega⟩
          by_cases he0 : 224 + t / 4096 = 224
          · rw [if_pos he0]
            omega
          · rw [if_neg he0]
            by_cases hed : 224 + t / 4096 = 237
            · rw [if_pos hed]
              omega
            · rw [if_neg hed]
              omega
        rw [if_pos he]
        rw [show (224 + t / 4096 - 224) * 4096 + (128 + t / 64 % 64 - 128) * 64 +
            (128 + t % 64 - 128) = t by omega, hofn]
      · rw [if_neg h3]
        simp only [List.cons_append, List.nil_append, utf8Step?]
        rw [if_neg (by omega), if_neg (by omega), if_neg (by omega),
          if_neg (by omega), if_pos (by omega)]
        have he : (if 240 + t / 262144 = 240 then
              144 ≤ 128 + t / 4096 % 64 ∧ 128 + t / 4096 % 64 ≤ 191
            else if 240 + t / 262144 = 244 then
              128 ≤ 128 + t / 4096 % 64 ∧ 128 + t / 4096 % 64 ≤ 143
            else 128 ≤ 128 + t / 4096 % 64 ∧ 128 + t / 4096 % 64 ≤ 191) ∧
            128 ≤ 128 + t / 64 % 64 ∧ 128 + t / 64 % 64 ≤ 191 ∧
            128 ≤ 128 + t % 64 ∧ 128 + t % 64 ≤ 191 := by
          refine ⟨?_, by omega, by omega, by omega, by omega⟩
          by_cases hf0 : 240 + t / 262144 = 240
          · rw [if_pos hf0]
            omega
          · rw [if_neg hf0]
            by_cases hf4 : 240 + t / 262144 = 244
            · rw [if_pos hf4]
              omega
            · rw [if_neg hf4]
              omega
        rw [if_pos he]
        rw [show (240 + t / 262144 - 240) * 262144 + (128 + t / 4096 % 64 - 128) *
            4096 + (128 + t / 64 % 64 - 128) * 64 + (128 + t % 64 - 128) = t by
            omega, hofn]

theorem utf8DecodeGo_encode (s : List Char) :
    ∀ fuel, (utf8Encode s).length ≤ fuel →
      utf8DecodeGo fuel (utf8Encode s) = some s := by
  induction s with
  | nil =>
    intro fuel _
    cases fuel <;> rfl
  | cons c cs ih =>
    intro fuel hfuel
    rw [utf8Encode] at hfuel ⊢
    rcases hcons : utf8EncodeChar c ++ utf8Encode cs with _ | ⟨b, bs⟩
    · rcases hq : utf8EncodeChar c with _ | ⟨x, xs⟩
      · exact absurd hq (utf8EncodeChar_ne_nil c)
      · rw [hq] at hcons
        simp at hcons
    · cases fuel with
      | zero =>
        exfalso
        have h1 := utf8EncodeChar_length_pos c
        rw [List.length_append] at hfuel
        omega
      | succ f =>
        rw [utf8DecodeGo, ← hcons, utf8Step?_encodeChar]
        have hlen : (utf8Encode cs).length ≤ f := by
          have h1 := utf8EncodeChar_length_pos c
          rw [List.length_append] at hfuel
          omega
        show (utf8DecodeGo f (utf8Encode cs)).map (c :: ·) = some (c :: cs)
        rw [ih f hlen]
        rfl

theorem utf8_roundtrip (s : List Char) : utf8Decode? (utf8Encode s) = some s :=
  utf8DecodeGo_encode s (utf8Encode s).length (le_refl _)

theorem decode_encode_frame (msg : List Char) (hne : msg ≠ [])
    (hlast : msg.getLast? = some '\r')
    (hint : ∀ c ∈ msg.dropLast, c ≠ '\r') :
    LssCodec.decode (utf8Encode msg) = (.ok (some ⟨msg⟩), []) := by
  have hdecomp : msg.dropLast ++ ['\r'] = msg := by
    have h1 := List.dropLast_append_getLast hne
    have h2 : msg.getLast hne = '\r' := by
      rw [List.getLast?_eq_getLast msg hne] at hlast
      exact Option.some.inj hlast
    rw [h2] at h1
    exact h1
  have hbytes : utf8Encode msg = utf8Encode msg.dropLast ++ [13] := by
    conv =>
      lhs
      rw [← hdecomp]
    rw [utf8Encode_append]
    rfl
  have hno13 : ∀ b ∈ utf8Encode msg.dropLast, ¬ ((b == 13) = true) := by
    intro b hb
    simpa using utf8Encode_no13 hint b hb
  have hpos : position? (fun b => b == 13) (utf8Encode msg) =
      some (utf8Encode msg.dropLast).length := by
    rw [hbytes]
    exact position?_append_last [] hno13 (by rfl)
  have hlen : (utf8Encode msg).length = (utf8Encode msg.dropLast).length + 1 := by
    rw [hbytes, List.length_append]
    rfl
  rw [LssCodec.decode, hpos]
  show ((match utf8Decode? ((utf8Encode msg).take
      ((utf8Encode msg.dropLast).length + 1)) with
    | some s => Except.ok (some (LssResponse.mk s))
    | none => Except.error "Invalid String"),
    (utf8Encode msg).drop ((utf8Encode msg.dropLast).length + 1)) = _
  rw [List.take_of_length_le (by omega), List.drop_eq_nil_of_le (by omega),
    utf8_roundtrip]

theorem decode_eq_of_position {src : List Nat} {n : Nat}
    (hpos : position? (fun b => b == 13) src = some n) :
    LssCodec.decode src =
      ((match utf8Decode? (src.take (n + 1)) with
        | some s => Except.ok (some (LssResponse.mk s))
        | none => Except.error "Invalid String"), src.drop (n + 1)) := by
  rw [LssCodec.decode, hpos]

/-! ### Claim theorems -/

/-- C2: for every buffer containing no delimiter byte `0x0D`, `decode`
returns "no complete frame yet" and leaves the buffer unchanged; repeating
the call on the resulting buffer yields the same outcome, and once bytes
containing a delimiter are appended, `decode` no longer reports an empty
result. -/
theorem claim_C2_decode_no_delimiter (src : List Nat)
    (h : ∀ b ∈ src, b ≠ 13) :
    LssCodec.decode src = (.ok none, src)
    ∧ LssCodec.decode (LssCodec.decode src).2 = (.ok none, src)
    ∧ ∀ ys, (13 : Nat) ∈ ys → (LssCodec.decode (src ++ ys)).1 ≠ .ok none := by
  have hpos : position? (fun b => b == 13) src = none :=
    position?_eq_none (fun b hb => by simpa using h b hb)
  have h1 : LssCodec.decode src = (.ok none, src) := by
    rw [LssCodec.decode, hpos]
  refine ⟨h1, by rw [h1, h1], ?_⟩
  intro ys hys hc
  have hne : position? (fun b => b == 13) (src ++ ys) ≠ none :=
    position?_ne_none_of_mem (List.mem_append.mpr (Or.inr hys))
  rcases hq : position? (fun b => b == 13) (src ++ ys) with _ | n
  · exact hne hq
  · rw [decode_eq_of_position hq] at hc
    rcases hu : utf8Decode? ((src ++ ys).take (n + 1)) with _ | s
    · rw [hu] at hc
      simp at hc
    · rw [hu] at hc
      simp at hc

/-- C2 witness: a concrete delimiter-free buffer. -/
theorem claim_C2_decode_no_delimiter_witness :
    LssCodec.decode (utf8Encode "*5QV11200".toList) =
      (.ok none, utf8Encode "*5QV11200".toList) :=
  (claim_C2_decode_no_delimiter (utf8Encode "*5QV11200".toList)
    (by decide)).1

/-- C1 counterexample: the buffer `[0xFF, 0x0D]` contains the delimiter at
offset 1, yet `decode` does not return the two consumed bytes as a frame:
it returns the invalid-string error (the bytes are not valid text), with
the bytes consumed all the same. -/
theorem claim_C1_counterexample :
    position? (fun b => b == 13) [255, 13] = some 1
    ∧ LssCodec.decode [255, 13] = (.error "Invalid String", []) := by
  decide

/-- C1 (amended): when the first delimiter byte sits at offset `n`, one
`decode` call removes exactly the first `n + 1` bytes, leaving all
trailing bytes in the buffer; the removed bytes come back as one frame
when they are valid text, and as an invalid-string error otherwise.  The
multi-frame example holds: `"*1QV1\r*2QV2\r"` yields two frames parsing
to address 1 / value 1 and address 2 / value 2, then "no complete frame
yet". -/
theorem claim_C1_decode_first_frame (src : List Nat) (n : Nat)
    (h1 : src.get? n = some 13)
    (h2 : ∀ i, i < n → src.get? i ≠ some 13) :
    ((∃ s, utf8Decode? (src.take (n + 1)) = some s ∧
        LssCodec.decode src = (.ok (some ⟨s⟩), src.drop (n + 1)))
      ∨ (utf8Decode? (src.take (n + 1)) = none ∧
        LssCodec.decode src = (.error "Invalid String", src.drop (n + 1))))
    ∧ LssCodec.decode (utf8Encode "*1QV1\r*2QV2\r".toList) =
        (.ok (some ⟨"*1QV1\r".toList⟩), utf8Encode "*2QV2\r".toList)
    ∧ LssCodec.decode (utf8Encode "*2QV2\r".toList) =
        (.ok (some ⟨"*2QV2\r".toList⟩), [])
    ∧ LssCodec.decode [] = (.ok none, [])
    ∧ (LssResponse.mk "*1QV1\r".toList).separate "QV".toList =
        some (.ok (1, 1))
    ∧ (LssResponse.mk "*2QV2\r".toList).separate "QV".toList =
        some (.ok (2, 2)) := by
  have hpos := position?_of_get h1 h2
  refine ⟨?_, by decide, by decide, by decide, ?_, ?_⟩
  · rcases hu : utf8Decode? (src.take (n + 1)) with _ | s
    · right
      refine ⟨rfl, ?_⟩
      rw [decode_eq_of_position hpos, hu]
    · left
      refine ⟨s, rfl, ?_⟩
      rw [decode_eq_of_position hpos, hu]
  · simp [LssResponse.separate, sliceBody, rustSplit, List.isPrefixOf]
    decide
  · simp [LssResponse.separate, sliceBody, rustSplit, List.isPrefixOf]
    decide

/-- C1 witness: the amended theorem applied to the concrete buffer
`"*A\r"` (delimiter at offset 2). -/
theorem claim_C1_decode_first_frame_witness :
    LssCodec.decode [42, 65, 13] = (.ok (some ⟨['*', 'A', '\r']⟩), []) := by
  rcases (claim_C1_decode_first_frame [42, 65, 13] 2 (by decide)
    (by decide)).1 with ⟨s, hs, hdec⟩ | ⟨hs, _⟩
  · have hs' : s = ['*', 'A', '\r'] := by
      have : utf8Decode? [42, 65, 13] = some ['*', 'A', '\r'] := by decide
      rw [List.take_of_length_le (by decide)] at hs
      rw [this] at hs
      exact (Option.some.inj hs).symm
    rw [hs'] at hdec
    simpa using hdec
  · rw [List.take_of_length_le (by decide)] at hs
    have : utf8Decode? [42, 65, 13] = some ['*', 'A', '\r'] := by decide
    rw [this] at hs
    cases hs

/-- C10: `separate`, `separate_string` and `get_val` slice the stored
message as `message[1..len - 1]`; on any message shorter than two
characters (the empty string, or the bare delimiter `"\r"` — a frame the
codec can produce) the slice is out of range and the extraction aborts
(modelled as `none`) instead of returning a typed parse error. -/
theorem claim_C10_short_message_panics (m : List Char) (sep : List Char)
    (h : m.length < 2) :
    (LssResponse.mk m).separate sep = none
    ∧ (LssResponse.mk m).separate_string sep = none
    ∧ (LssResponse.mk m).get_val sep = none
    ∧ (LssResponse.mk "\r".toList).separate sep = none
    ∧ (LssResponse.mk "".toList).separate sep = none := by
  have hsb : sliceBody m = none := by
    rw [sliceBody, if_neg (by omega)]
  have hsb1 : sliceBody "\r".toList = none := by decide
  have hsb0 : sliceBody "".toList = none := by decide
  refine ⟨?_, ?_, ?_, ?_, ?_⟩
  · rw [LssResponse.separate, hsb]
    rfl
  · rw [LssResponse.separate_string, hsb]
    rfl
  · rw [LssResponse.get_val, hsb]
    rfl
  · rw [LssResponse.separate, hsb1]
    rfl
  · rw [LssResponse.separate, hsb0]
    rfl

/-- C3: on a message `<marker><body><delimiter>`, `separate(op)` strips the
marker and delimiter and splits the body on the literal opcode; the first
field (always present — the split is never empty) must parse as a `u8`
address and the second as an `i32` value, yielding the pair; a missing
second field or an unparsable value yields a payload-parse error.  In
particular `separate("QD")` on `"*5QD132\r"` returns `(5, 132)`. -/
theorem claim_C3_separate (marker : Char) (body : List Char) (d : Char)
    (op : List Char) (hop : op ≠ []) :
    rustSplit op body ≠ []
    ∧ (∀ f1 a f2 v, (rustSplit op body).head? = some f1 →
        parseU8? f1 = some a →
        (rustSplit op body).tail.head? = some f2 → parseI32? f2 = some v →
        (LssResponse.mk (marker :: (body ++ [d]))).separate op =
          some (.ok (a, v)))
    ∧ (∀ f1 a, (rustSplit op body).head? = some f1 → parseU8? f1 = some a →
        (rustSplit op body).tail.head? = none →
        (LssResponse.mk (marker :: (body ++ [d]))).separate op =
          some (.error (.PacketParsingError "Failed to extract value")))
    ∧ (∀ f1 a f2, (rustSplit op body).head? = some f1 →
        parseU8? f1 = some a →
        (rustSplit op body).tail.head? = some f2 → parseI32? f2 = none →
        (LssResponse.mk (marker :: (body ++ [d]))).separate op =
          some (.error (.PacketParsingError "Failed parsing value")))
    ∧ (LssResponse.mk "*5QD132\r".toList).separate "QD".toList =
        some (.ok (5, 132)) := by
  refine ⟨rustSplit_ne_nil op body, ?_, ?_, ?_, ?_⟩
  · intro f1 a f2 v hf1 ha hf2 hv
    simp only [LssResponse.separate, sliceBody_frame, Option.map_some', hf1,
      ha, hf2, hv]
  · intro f1 a hf1 ha hf2
    simp only [LssResponse.separate, sliceBody_frame, Option.map_some', hf1,
      ha, hf2]
  · intro f1 a f2 hf1 ha hf2 hv
    simp only [LssResponse.separate, sliceBody_frame, Option.map_some', hf1,
      ha, hf2, hv]
  · simp [LssResponse.separate, sliceBody, rustSplit, List.isPrefixOf]
    decide

/-- C3 witness: the theorem applied to the concrete frame `"*5QD132\r"`
with opcode `"QD"`. -/
theorem claim_C3_separate_witness :
    (LssResponse.mk "*5QD132\r".toList).separate "QD".toList =
      some (.ok (5, 132)) :=
  (claim_C3_separate '*' "5QD132".toList '\r' "QD".toList
    (by decide)).2.2.2.2

/-- C6: on a message `<marker><body><delimiter>`, `get_val(op)` splits the
stripped body on the opcode and parses the *last* field as the integer
value, ignoring any address prefix; the last field always exists because
the split is never empty.  In particular `get_val("QID")` on `"*QID5\r"`
returns `5` even though no address field is present. -/
theorem claim_C6_get_val (marker : Char) (body : List Char) (d : Char)
    (op : List Char) (hop : op ≠ []) :
    (rustSplit op body).getLast? ≠ none
    ∧ (∀ lastF, (rustSplit op body).getLast? = some lastF →
        (LssResponse.mk (marker :: (body ++ [d]))).get_val op =
          some (match parseI32? lastF with
            | none => .error (.PacketParsingError "failed to parse int")
            | some v => .ok v))
    ∧ (LssResponse.mk "*QID5\r".toList).get_val "QID".toList =
        some (.ok 5) := by
  refine ⟨?_, ?_, ?_⟩
  · intro hc
    exact rustSplit_ne_nil op body (List.getLast?_eq_none_iff.mp hc)
  · intro lastF hlast
    simp only [LssResponse.get_val, sliceBody_frame, Option.map_some', hlast]
  · simp [LssResponse.get_val, sliceBody, rustSplit, List.isPrefixOf]
    decide

/-- C6 witness: the theorem applied to the concrete address-free frame
`"*QID5\r"` with opcode `"QID"`. -/
theorem claim_C6_get_val_witness :
    (LssResponse.mk "*QID5\r".toList).get_val "QID".toList =
      some (.ok 5) :=
  (claim_C6_get_val '*' "QID5".toList '\r' "QID".toList (by decide)).2.2

/-- C4: `simple(target, opcode)` renders exactly `#<target><opcode>\r` and
`with_param(target, opcode, value)` renders exactly
`#<target><opcode><value>\r`, where the value is the signed decimal
rendering: digits of the absolute value with no leading zero (only `0`
itself starts with `0`), preceded by a minus sign for negative values.
In particular `with_param(1, "D", 200)` renders `"#1D200\r"`. -/
theorem claim_C4_render (id : Nat) (cmd : List Char) (val : Int) :
    (LssCommand.simple id cmd).message =
      '#' :: (natDecDigits id ++ cmd ++ ['\r'])
    ∧ (LssCommand.with_param id cmd val).message =
      '#' :: (natDecDigits id ++ cmd ++ intDecChars val ++ ['\r'])
    ∧ (0 ≤ val → intDecChars val = natDecDigits val.toNat)
    ∧ (val < 0 → intDecChars val = '-' :: natDecDigits val.natAbs)
    ∧ (∀ c, (natDecDigits id).head? = some c → c = '0' → id = 0)
    ∧ (∀ c, (natDecDigits val.natAbs).head? = some c → c = '0' → val = 0)
    ∧ (LssCommand.with_param 1 ['D'] 200).message = "#1D200\r".toList := by
  refine ⟨rfl, rfl, ?_, ?_, ?_, ?_, ?_⟩
  · intro h
    rw [intDecChars, if_neg (by omega)]
  · intro h
    rw [intDecChars, if_pos h]
  · intro c hc hc0
    subst hc0
    by_contra hne
    exact natDecDigits_head_ne_zero hne hc
  · intro c hc hc0
    subst hc0
    by_contra hne
    exact natDecDigits_head_ne_zero (Int.natAbs_ne_zero.mpr hne) hc
  · have h200 : intDecChars 200 = ['2', '0', '0'] := by
      simp [intDecChars, natDecDigits]
    have hone : natDecDigits 1 = ['1'] := by
      simp [natDecDigits]
    simp only [LssCommand.with_param, h200, hone]
    decide

/-- C4 witness: the concrete rendering `with_param(1, "D", 200)`. -/
theorem claim_C4_render_witness :
    (LssCommand.with_param 1 ['D'] 200).message = "#1D200\r".toList :=
  (claim_C4_render 1 ['D'] 200).2.2.2.2.2.2

/-- C5: for a command built by `simple` or `with_param` whose rendered
text contains the delimiter only as its final character, encoding into an
empty buffer and then running one decode yields exactly one response
whose raw text equals the rendered text (the `#` marker is untouched by
the codec), and leaves the buffer empty. -/
theorem claim_C5_roundtrip (id : Nat) (cmd : List Char) (val : Int)
    (h1 : ∀ c ∈ (LssCommand.with_param id cmd val).message.dropLast, c ≠ '\r')
    (h2 : ∀ c ∈ (LssCommand.simple id cmd).message.dropLast, c ≠ '\r') :
    LssCodec.decode (LssCodec.encode (LssCommand.with_param id cmd val) []) =
      (.ok (some ⟨(LssCommand.with_param id cmd val).message⟩), [])
    ∧ LssCodec.decode (LssCodec.encode (LssCommand.simple id cmd) []) =
      (.ok (some ⟨(LssCommand.simple id cmd).message⟩), []) := by
  constructor
  · have hshape : (LssCommand.with_param id cmd val).message =
        ('#' :: (natDecDigits id ++ cmd ++ intDecChars val)) ++ ['\r'] := by
      simp [LssCommand.with_param]
    rw [LssCodec.encode, List.nil_append, hshape]
    rw [hshape] at h1
    exact decode_encode_frame _ (by simp) (List.getLast?_concat _) h1
  · have hshape : (LssCommand.simple id cmd).message =
        ('#' :: (natDecDigits id ++ cmd)) ++ ['\r'] := by
      simp [LssCommand.simple]
    rw [LssCodec.encode, List.nil_append, hshape]
    rw [hshape] at h2
    exact decode_encode_frame _ (by simp) (List.getLast?_concat _) h2

/-- C5 witness: the round trip for the concrete command `#5QV\r`. -/
theorem claim_C5_roundtrip_witness :
    LssCodec.decode (LssCodec.encode (LssCommand.simple 5 ['Q', 'V']) []) =
      (.ok (some ⟨(LssCommand.simple 5 ['Q', 'V']).message⟩), []) := by
  have hfive : natDecDigits 5 = ['5'] := by
    simp [natDecDigits]
  have hzero : intDecChars 0 = ['0'] := by
    simp [intDecChars, natDecDigits]
  refine (claim_C5_roundtrip 5 ['Q', 'V'] 0 ?_ ?_).2
  · simp only [LssCommand.with_param, hfive, hzero]
    decide
  · simp only [LssCommand.simple, hfive]
    decide

set_option maxHeartbeats 2000000 in
/-- C7: `MotorStatus::from_i32` succeeds on every integer from 0 to 10,
injectively (distinct codes give distinct variants), maps 10 to the
safe-mode variant, and fails with the enum-decode error (the
`PacketParsingError` value carrying the offending integer — the kind the
spec calls `UnrecognizedEnumValue`) on every other integer, e.g. 42; an
out-of-range code is never coerced to a default variant. -/
theorem claim_C7_motor_status :
    (∀ n : Int, 0 ≤ n → n ≤ 10 → ∃ s, MotorStatus.from_i32 n = .ok s)
    ∧ (∀ m n : Int, 0 ≤ m → m ≤ 10 → 0 ≤ n → n ≤ 10 →
        MotorStatus.from_i32 m = MotorStatus.from_i32 n → m = n)
    ∧ MotorStatus.from_i32 10 = .ok .SafeMode
    ∧ (∀ n : Int, n < 0 ∨ 10 < n →
        MotorStatus.from_i32 n =
          .error ⟨"Failed parsing MotorStatus from " ++ intDecStr n⟩)
    ∧ MotorStatus.from_i32 42 =
        .error ⟨"Failed parsing MotorStatus from 42"⟩ := by
  have h42 : intDecStr 42 = "42" := by
    simp [intDecStr, intDecChars, natDecDigits]
  refine ⟨?_, ?_, by decide, ?_, ?_⟩
  · intro n h0 h10
    interval_cases n <;> exact ⟨_, rfl⟩
  · intro m n hm0 hm10 hn0 hn10
    interval_cases m <;> interval_cases n <;> decide
  · intro n hn
    rcases hn with hn | hn <;>
      · rw [MotorStatus.from_i32]
        split_ifs <;> first | rfl | omega
  · rw [MotorStatus.from_i32]
    split_ifs <;> first | omega | (rw [h42]; rfl)

/-- C7 witness: totality at 7 and failure at 42 through the theorem. -/
theorem claim_C7_motor_status_witness :
    MotorStatus.from_i32 10 = .ok .SafeMode
    ∧ MotorStatus.from_i32 42 =
        .error ⟨"Failed parsing MotorStatus from 42"⟩ :=
  ⟨claim_C7_motor_status.2.2.1, claim_C7_motor_status.2.2.2.2⟩

/-- C8 (amended): for every flag list whose raw sum fits in `i32` (at most
`2^31 - 1`), the parameter sent by `set_led_blinking` is the raw sum
clamped from above to 63: a raw sum of at most 63 is sent as is
(`[Accelerating, Decelerating]` sends 12), and a raw sum above 63 is sent
as 63 (`[AlwaysBlink]` sends 63, overlapping `[AlwaysBlink, Limp]` also
sends 63).  A raw sum that overflows `i32` wraps and can differ from 63. -/
theorem claim_C8_led_blinking (modes : List LedBlinking)
    (hfit : (modes.map LedBlinking.toI32).sum ≤ 2147483647) :
    set_led_blinking_sum modes = min ((modes.map LedBlinking.toI32).sum) 63
    ∧ ((modes.map LedBlinking.toI32).sum ≤ 63 →
        set_led_blinking_sum modes = (modes.map LedBlinking.toI32).sum)
    ∧ (63 < (modes.map LedBlinking.toI32).sum →
        set_led_blinking_sum modes = 63)
    ∧ (∀ i, (set_led_blinking_command i modes).message =
        '#' :: (natDecDigits i ++ "CLB".toList ++
          intDecChars (set_led_blinking_sum modes) ++ ['\r']))
    ∧ set_led_blinking_sum [.Accelerating, .Decelerating] = 12
    ∧ set_led_blinking_sum [.AlwaysBlink] = 63
    ∧ set_led_blinking_sum [.AlwaysBlink, .Limp] = 63 := by
  have hnn : 0 ≤ (modes.map LedBlinking.toI32).sum := by
    apply List.sum_nonneg
    intro x hx
    rcases List.mem_map.mp hx with ⟨b, _, hb⟩
    rw [← hb]
    cases b <;> decide
  have hw : sumI32 (modes.map LedBlinking.toI32) =
      (modes.map LedBlinking.toI32).sum := by
    rw [sumI32_eq_wrap, i32wrap_of_range (by omega) (by omega)]
  refine ⟨by rw [set_led_blinking_sum, hw], ?_, ?_, fun i => rfl,
    by decide, by decide, by decide⟩
  · intro h63
    rw [set_led_blinking_sum, hw, min_eq_left h63]
  · intro h63
    rw [set_led_blinking_sum, hw, min_eq_right (by omega)]

/-- C8 witness: the clamp computation at the concrete list
`[Accelerating, Decelerating]`. -/
theorem claim_C8_led_blinking_witness :
    set_led_blinking_sum [.Accelerating, .Decelerating] = 12 :=
  (claim_C8_led_blinking [.Accelerating, .Decelerating] (by decide)).2.2.2.2.1

/-- C8 counterexample: a list of `2^26` copies of `AlwaysBlink` has raw
sum `63 * 2^26 = 4227858432 > 63`, but the `i32` sum wraps to
`-67108864`, so the parameter sent is not 63 — the claim as stated fails
for lists whose raw sum overflows `i32`. -/
theorem claim_C8_counterexample :
    63 < ((List.replicate 67108864 LedBlinking.AlwaysBlink).map
      LedBlinking.toI32).sum
    ∧ set_led_blinking_sum
        (List.replicate 67108864 LedBlinking.AlwaysBlink) ≠ 63 := by
  have hmap : (List.replicate 67108864 LedBlinking.AlwaysBlink).map
      LedBlinking.toI32 = List.replicate 67108864 (63 : Int) := by
    rw [List.map_replicate]
    rfl
  have hsum : (List.replicate 67108864 (63 : Int)).sum = 4227858432 := by
    rw [List.sum_replicate]
    simp [nsmul_eq_mul]
  constructor
  · rw [hmap, hsum]
    norm_num
  · rw [set_led_blinking_sum, hmap, sumI32_eq_wrap, hsum]
    decide

/-- C10 witness: the bare-delimiter frame aborts all three extractions. -/
theorem claim_C10_short_message_panics_witness :
    (LssResponse.mk ['\r']).separate ['Q', 'V'] = none
    ∧ (LssResponse.mk ['\r']).separate_string ['Q', 'V'] = none
    ∧ (LssResponse.mk ['\r']).get_val ['Q', 'V'] = none := by
  have h := claim_C10_short_message_panics ['\r'] ['Q', 'V'] (by decide)
  exact ⟨h.1, h.2.1, h.2.2.1⟩

end LssVerify
